import Mathlib

/-
Formal model of the gospider web crawler (Willyham/gospider).

The development shallowly embeds the crawl-orchestration core:
the URL frontier (`spider/queue.go`), the link-policy helpers
(`spider/urls.go`), the worker pool (`spider/internal/concurrency/workerpool.go`),
the robots acquisition and the crawl step (`spider/spider.go`), and the
HTML reporter (`reporter`).  Go slices become `List`, the `seen`
map becomes a list of keys with set semantics, machine pointers used as map
keys become abstract identifiers, and fallible operations return
`Option`/`Except`.  A Go runtime panic is modelled as an explicit outcome.
-/

namespace GoSpider

/-- Model of `net/url.URL` restricted to the components the spider reads:
`Scheme`, the hostname (`Hostname()`, i.e. the host with any port already
stripped) and the path.  Query and fragment play no role in any claim and are
omitted. -/
structure URL where
  scheme : String
  host : String
  path : String
deriving DecidableEq, Repr

/-- Model of `(*url.URL).String()`, used by the queue as the deduplication
key (`item.String()` in `queue.go`). -/
def urlString (u : URL) : String :=
  u.scheme ++ "://" ++ u.host ++ "/" ++ u.path

/-- Model of Go `strings.HasSuffix s suffix`. -/
def goHasSuffix (s suffix : String) : Bool :=
  decide (suffix.data <:+ s.data)

/-- Path merge used by reference resolution when the reference path is
relative: everything of the base path up to its last `/` is kept.
This models the RFC 3986 merge performed inside `net/url`
(dot-segment normalisation omitted; no claim depends on it). -/
def mergePaths (base ref : String) : String :=
  match (base.data.reverse.dropWhile (fun c => c ≠ '/')).reverse with
  | [] => ref
  | ds => String.mk ds ++ ref

/-- Model of `(*url.URL).ResolveReference(ref)` from `net/url` (an external
collaborator of the repository): an absolute reference (one with a scheme) is
taken as is; a scheme-relative reference keeps its host and takes the base
scheme; otherwise the base scheme and host are kept and the paths are merged
per RFC 3986. -/
def resolveReference (base ref : URL) : URL :=
  if ref.scheme ≠ "" then ref
  else if ref.host ≠ "" then { ref with scheme := base.scheme }
  else
    { scheme := base.scheme
      host := base.host
      path := if ref.path.startsWith "/" then ref.path else mergePaths base.path ref.path }

/-! Frontier: `urlQueue` from `spider/queue.go`.  The struct holds the
pending slice `urls` and the `seen` map; the mutex only serialises the
operations and has no sequential content, so the model is the pair of both
fields and each method is a function of that state. -/

/-- Model of `urlQueue` (`queue.go`): the pending slice plus the `seen`
map, the latter modelled as its set of keys. -/
structure urlQueue where
  urls : List URL
  seen : List String
deriving DecidableEq, Repr

/-- Model of `newURLQueue`. -/
def newURLQueue : urlQueue := ⟨[], []⟩

/-- Model of `urlQueue.HasItems`: `len(q.urls) > 0`. -/
def urlQueue.HasItems (q : urlQueue) : Bool :=
  decide (q.urls.length > 0)

/-- Model of `urlQueue.Seen`: key membership in the `seen` map. -/
def urlQueue.Seen (q : urlQueue) (item : URL) : Bool :=
  decide (urlString item ∈ q.seen)

/-- Outcome of one call to `urlQueue.Next`.  The Go method returns a
`*url.URL`; on an empty slice the expression `q.urls[len(q.urls)-1]`
raises an index-out-of-range runtime panic, which the model makes an
explicit constructor. -/
inductive NextOutcome where
  | value (u : URL) (rest : urlQueue)
  | panicked
deriving DecidableEq, Repr

/-- Model of `urlQueue.Next` (`queue.go` lines 40-46):
`next, q.urls = q.urls[len(q.urls)-1], q.urls[:len(q.urls)-1]`.
The last element of the slice is removed and returned; on an empty slice the
indexing panics. -/
def urlQueue.Next (q : urlQueue) : NextOutcome :=
  match q.urls.getLast? with
  | none => .panicked
  | some u => .value u ⟨q.urls.dropLast, q.seen⟩

/-- Model of `urlQueue.Append` (`queue.go` lines 48-53): the URL is appended
to the end of the pending slice and its string form is recorded in `seen`. -/
def urlQueue.Append (q : urlQueue) (item : URL) : urlQueue :=
  ⟨q.urls ++ [item], q.seen.insert (urlString item)⟩

/-- Appending each element of a batch in order, as the loop over `toAdd`
in `work` does. -/
def appendAll (q : urlQueue) (items : List URL) : urlQueue :=
  items.foldl urlQueue.Append q

/-! Link policy: the pure helpers of `spider/urls.go`. -/

/-- Model of the `filter` helper (`urls.go` lines 21-29): keep the urls
satisfying the predicate, in order. -/
def filter (predicate : URL → Bool) (urls : List URL) : List URL :=
  urls.filter predicate

/-- Model of `mapURLs` (`urls.go` lines 54-60). -/
def mapURLs (f : URL → URL) (urls : List URL) : List URL :=
  urls.map f

/-- Model of `createIsInternalPredicate` (`urls.go` lines 34-41): when
following subdomains the input hostname must have the root hostname as a
suffix (`strings.HasSuffix`), otherwise the hostnames must be equal. -/
def createIsInternalPredicate (root : URL) (followSubdomains : Bool) : URL → Bool :=
  fun input =>
    if followSubdomains then goHasSuffix input.host root.host
    else input.host == root.host

/-- Model of `createNotSeenPredicate` (`urls.go` lines 45-49); a `Seener`
is modelled as its membership test. -/
def createNotSeenPredicate (seener : URL → Bool) : URL → Bool :=
  fun input => !(seener input)

/-- Model of `createAbsoluteTransformer` (`urls.go` lines 64-68):
resolve the url relative to the given root. -/
def createAbsoluteTransformer (root : URL) : URL → URL :=
  fun input => resolveReference root input

/-! Parser and crawl step.  `parser.ByToken` walks the HTML tokens and, for
each anchor `href`, calls `url.Parse` and silently skips the string when
parsing fails; the surviving parsed links are returned in document order.
Tokenisation itself is an external collaborator (`golang.org/x/net/html`),
so the model starts from the list of extracted `href` strings, and
`url.Parse` (stdlib) is passed in as the parse function. -/

/-- Model of the link extraction in `parser.ByToken` (`parser.go`): parse
each raw `href` string, dropping the ones `url.Parse` rejects, keeping
document order. -/
def extractParsedLinks (parse : String → Option URL) (hrefs : List String) : List URL :=
  hrefs.filterMap parse

/-- Model of the link-filtering portion of `(*Spider).work`
(`spider.go` lines 372-389): build the three helpers, map the parsed links
to absolute form, keep the internal ones, and keep those not yet seen.
`queueSeen` is the queue's `Seen` test at the start of the step; every
evaluation of the not-seen predicate in the Go code happens before any
`Append` of this step, so the snapshot is exact. -/
def workFilterStep (root : URL) (followSubdomains : Bool) (queueSeen : URL → Bool)
    (links : List URL) : List URL :=
  let onlyInternal := createIsInternalPredicate root followSubdomains
  let asAbsolute := createAbsoluteTransformer root
  let notSeen := createNotSeenPredicate queueSeen
  let absoluteLinks := mapURLs asAbsolute links
  let internalLinks := filter onlyInternal absoluteLinks
  filter notSeen internalLinks

/-- Spec-side description of the admitted batch, following the words of the
specification: each string parsed (unparsable strings dropped, never
fatally), the parsed URL resolved to absolute form against the run's root
URL, and kept iff it is internal and not already seen, preserving input
order. -/
def specAdmittedLinks (parse : String → Option URL) (root : URL)
    (followSubdomains : Bool) (queueSeen : URL → Bool) (hrefs : List String) : List URL :=
  hrefs.filterMap (fun raw =>
    match parse raw with
    | none => none
    | some u =>
      let r := resolveReference root u
      if createIsInternalPredicate root followSubdomains r && !(queueSeen r) then some r
      else none)

/-! Worker pool: `spider/internal/concurrency/workerpool.go`.  A Go `error`
value is modelled by a name (an opaque payload) together with the runtime
capability that `runWorker` checks via the type assertion
`r, ok := err.(Retryable)` followed by `r.Retryable()`. -/

/-- Model of a Go `error` value as the worker pool observes it:
`implRetryable` says whether the dynamic type implements the `Retryable`
interface, `retryableVal` is what `Retryable()` would return. -/
structure GoError where
  name : String
  implRetryable : Bool
  retryableVal : Bool
deriving DecidableEq, Repr

/-- The check `r, ok := err.(Retryable); ok && r.Retryable()` from
`runWorker` (`workerpool.go` lines 134-135). -/
def isRetryableErr (e : GoError) : Bool :=
  e.implRetryable && e.retryableVal

/-- Messages a worker posts to the pool's control loop: a `result` on the
results channel, or an error on the errors channel. -/
inductive PoolMsg where
  | result
  | errorMsg (e : GoError)
deriving DecidableEq, Repr

/-- Model of the outcome classification in `runWorker` (`workerpool.go`
lines 120-144): no error posts a result; a retryable error is logged and
posts a result as if successful; any other error is posted on the error
channel. -/
def runWorkerClassify (out : Option GoError) : PoolMsg :=
  match out with
  | none => .result
  | some e => if isRetryableErr e then .result else .errorMsg e

/-- The message stream a worker produces from a sequence of unit-of-work
outcomes. -/
def runWorkerMsgs (outs : List (Option GoError)) : List PoolMsg :=
  outs.map runWorkerClassify

/-- Model of the control loop in `Start` (`workerpool.go` lines 79-111):
on a result message another job is issued and the loop continues; on an
error message the pool transitions to stopping, closes the job channel,
drains, waits for the workers, and returns that error.  `none` stands for a
loop that is still running when the message stream ends. -/
def startLoop : List PoolMsg → Option GoError
  | [] => none
  | .result :: rest => startLoop rest
  | .errorMsg e :: _ => some e

/-- The pool's reaction to a sequence of unit-of-work outcomes: the value
`Start` returns once the workers have produced those outcomes. -/
def poolStart (outs : List (Option GoError)) : Option GoError :=
  startLoop (runWorkerMsgs outs)

/-! Reporter: `reporter.HTML` (the `reporter` package).  Its `sitemap`
field is a Go map keyed by `*url.URL`, i.e. by pointer identity; a pointer
is modelled as an abstract identifier (`Nat`).  Map insertion order is
irrelevant, so the map is modelled as an association list extended at the
front. -/

/-- Model of `pageContent` (reporter): the links and assets recorded for a
page. -/
structure pageContent where
  Links : List URL
  Assets : List String
deriving DecidableEq, Repr

/-- A `*url.URL` pointer used as a sitemap key, abstracted to an
identifier compared by identity. -/
abbrev URLPtr := Nat

/-- Model of `reporter.HTML`: the sitemap map. -/
structure HTML where
  sitemap : List (URLPtr × pageContent)
deriving DecidableEq, Repr

/-- Model of `NewHTML`: an empty sitemap. -/
def NewHTML : HTML := ⟨[]⟩

/-- Model of `(*HTML).Add` (reporter, lines 57-69): if the key is already
present, return without touching the map; otherwise record the links and
assets for the key. -/
def HTML.Add (r : HTML) (uri : URLPtr) (links : List URL) (assets : List String) : HTML :=
  match r.sitemap.lookup uri with
  | some _ => r
  | none => ⟨(uri, ⟨links, assets⟩) :: r.sitemap⟩

/-! Robots acquisition.  `client.Request` (the repository's HTTP client)
returns either the body on a 200, a `httpResponseError` carrying the status
code on any other HTTP status, or the transport error from `http.Client.Do`.
The three outcomes form `RequestOutcome`; the body value Go returns next to
an error is carried on the constructor, since `readRobotsData` forwards it. -/

/-- One call of `Requester.Request`: success body, HTTP status failure
(`httpResponseError`), or a non-HTTP transport error. -/
inductive RequestOutcome where
  | ok (body : String)
  | httpError (statusCode : Nat) (body : String)
  | transportError (e : GoError)
deriving DecidableEq, Repr

/-- A parsed robots policy. -/
inductive RobotsData where
  | allowAll
  | disallowAll
  | fromRules (body : String)
deriving DecidableEq, Repr

/-- Modelled from the spec: `robotstxt.FromBytes` of the external
`temoto/robotstxt` library (not part of the repository sources) parses a
byte body into rules; parsing is best effort and total. -/
def robotstxtFromBytes (body : String) : RobotsData :=
  .fromRules body

/-- Modelled from the spec: `robotstxt.FromStatusAndBytes` of the external
`temoto/robotstxt` library.  Per the specification, a 2xx parses the body, a
4xx yields an allow-by-default policy, a 5xx yields a deny-by-default
policy, and any other status still attempts to parse the body using the
status as a hint. -/
def robotstxtFromStatusAndBytes (statusCode : Nat) (body : String) :
    Except GoError RobotsData :=
  if 200 ≤ statusCode ∧ statusCode < 300 then .ok (robotstxtFromBytes body)
  else if 400 ≤ statusCode ∧ statusCode < 500 then .ok .allowAll
  else if 500 ≤ statusCode then .ok .disallowAll
  else .ok (robotstxtFromBytes body)

/-- Model of `(*Spider).readRobotsData` (`spider.go` lines 397-411) applied
to the outcome of the robots request: a plain success parses the body with
`FromBytes`; an error that type-asserts to `httpResponseError` is handed to
`FromStatusAndBytes` together with the body value; any other error is
returned to the caller. -/
def readRobotsData (resp : RequestOutcome) : Except GoError RobotsData :=
  match resp with
  | .ok body => .ok (robotstxtFromBytes body)
  | .httpError statusCode body => robotstxtFromStatusAndBytes statusCode body
  | .transportError e => .error e

/-! Run model.  `(*Spider).Run` (`spider.go` lines 320-340) reads the robots
policy (unless disabled), appends the root to the queue, raises the
completion counter, starts the pool in a separate goroutine — discarding the
value `pool.Start()` returns — waits on the counter and returns `nil`.
The model below executes the default configuration (one worker, `New` sets
`concurrency: 1`) sequentially.  The crawl environment `env` gives, per
URL, the fatal/retryable error of the fetch-and-parse phase or the parsed
links of the page.  The model records which URLs were fetched. -/

/-- How a run ends: `Run` returns a value, or blocks forever on the
completion counter. -/
inductive RunOutcome where
  | returned (e : Option GoError)
  | hangs
  | outOfFuel
deriving DecidableEq, Repr

/-- The visible result of a run: how `Run` ended and which URLs were
fetched, in order. -/
structure RunTrace where
  outcome : RunOutcome
  fetched : List URL
deriving DecidableEq, Repr

/-- One-worker crawl loop: pop the most recent URL, fetch and parse it,
admit the filtered links, and decrement the counter for the popped item.
With a single worker the completion counter equals the number of pending
URLs between steps, so the run returns `nil` once the queue is empty
(the empty-poll panic of `urlQueue.Next`, a separate defect, would race
with that return; the model takes the interleaving in which the waiting
thread wins).  A fatal error from the unit of work stops the pool; the
error never reaches `Run`, which either returns `nil` (counter already
zero) or blocks forever on the remaining pending items. -/
def crawlLoop (env : URL → Except GoError (List URL)) (followSubdomains : Bool)
    (root : URL) : Nat → urlQueue → List URL → RunTrace
  | 0, _, fetched => ⟨.outOfFuel, fetched⟩
  | fuel + 1, q, fetched =>
    match q.Next with
    | .panicked => ⟨.returned none, fetched⟩
    | .value next q' =>
      match env next with
      | .error e =>
        if isRetryableErr e then
          crawlLoop env followSubdomains root fuel q' (fetched ++ [next])
        else if q'.urls.isEmpty then ⟨.returned none, fetched ++ [next]⟩
        else ⟨.hangs, fetched ++ [next]⟩
      | .ok links =>
        let toAdd := workFilterStep root followSubdomains (fun v => q'.Seen v) links
        crawlLoop env followSubdomains root fuel (appendAll q' toAdd) (fetched ++ [next])

/-- Model of `(*Spider).Run`: robots phase first (a robots failure is
returned before anything is fetched), then the root is admitted and the
crawl loop runs to completion. -/
def spiderRun (ignoreRobots : Bool) (robotsResp : RequestOutcome)
    (env : URL → Except GoError (List URL)) (followSubdomains : Bool)
    (root : URL) (fuel : Nat) : RunTrace :=
  if ignoreRobots then
    crawlLoop env followSubdomains root fuel (newURLQueue.Append root) []
  else
    match readRobotsData robotsResp with
    | .error e => ⟨.returned (some e), []⟩
    | .ok _ => crawlLoop env followSubdomains root fuel (newURLQueue.Append root) []

/-! Completion counter under arbitrary interleavings.  The `sync.WaitGroup`
of `(*Spider).Run` is incremented once per URL admitted (`wg.Add(1)` right
after each `queue.Append`, including the root) and decremented once per
popped item by the `defer wg.Done()` that `work` registers after its pop
(`spider.go` lines 349-392).  The transition system below tracks the counter
value, the number of pending queue entries and each worker's position in the
crawl step, at the granularity of the counter-relevant program points:

* `pop`: a worker takes an item off the queue (`s.queue.Next()`); the number
  of links it will admit is chosen nondeterministically at this point;
* `append`: the worker executes `s.queue.Append(link)` — the queue grows
  before the counter does, since `wg.Add(1)` is the following statement;
* `add`: the worker executes the `s.wg.Add(1)` after an append;
* `done`: the worker returns and its deferred `s.wg.Done()` fires — also
  from an early error return, which skips any remaining admissions.

The initial state is the one in which `go pool.Start()` is reached: the
root has been appended and counted (`spider.go` lines 330-331 run before any
worker exists). -/

/-- A worker's position inside one crawl step: `idle` (between work calls),
`busy k` (holding a popped item, with `k` link admissions still to perform),
or `gap k` (between the `Append` of a link and its `wg.Add(1)`). -/
inductive WorkerPos where
  | idle
  | busy (k : Nat)
  | gap (k : Nat)
deriving DecidableEq, Repr

/-- Whether a worker currently holds a popped item whose `wg.Done()` may
fire next (position `busy`). -/
def WorkerPos.isBusy : WorkerPos → Bool
  | .busy _ => true
  | _ => false

/-- Global state of the completion-counter protocol: the counter value, the
number of pending queue entries, and the workers' positions. -/
structure CounterState where
  counter : Int
  pending : Nat
  workers : List WorkerPos
deriving DecidableEq, Repr

/-- The state in which the worker pool starts: the root is pending and
counted, every worker idle. -/
def counterInit (n : Nat) : CounterState :=
  ⟨1, 1, List.replicate n .idle⟩

/-- One counter-relevant event of one worker, under any interleaving. -/
inductive CounterStep : CounterState → CounterState → Prop
  | pop (s : CounterState) (i k : Nat) (h : s.workers.get? i = some .idle)
      (hp : 0 < s.pending) :
      CounterStep s ⟨s.counter, s.pending - 1, s.workers.set i (.busy k)⟩
  | append (s : CounterState) (i k : Nat) (h : s.workers.get? i = some (.busy (k + 1))) :
      CounterStep s ⟨s.counter, s.pending + 1, s.workers.set i (.gap k)⟩
  | add (s : CounterState) (i k : Nat) (h : s.workers.get? i = some (.gap k)) :
      CounterStep s ⟨s.counter + 1, s.pending, s.workers.set i (.busy k)⟩
  | done (s : CounterState) (i k : Nat) (h : s.workers.get? i = some (.busy k)) :
      CounterStep s ⟨s.counter - 1, s.pending, s.workers.set i .idle⟩

/-- The states a run with `n` workers can reach. -/
def CounterReachable (n : Nat) (s : CounterState) : Prop :=
  Relation.ReflTransGen CounterStep (counterInit n) s

/-! Frontier traces for the seen-set invariants.  A trace is a finite
sequence of `Append` and `Next` calls; executing it from the fresh queue
yields the final queue plus the log of popped URLs, or `none` if some
`Next` panicked on an empty queue. -/

/-- One Frontier call. -/
inductive QueueOp where
  | append (u : URL)
  | next
deriving DecidableEq, Repr

/-- Queue state together with the log of popped URLs. -/
structure QueueTrace where
  queue : urlQueue
  popped : List URL
deriving DecidableEq, Repr

/-- Execute one call: `Append` extends the queue, `Next` pops (or panics,
yielding `none`). -/
def applyOp (t : QueueTrace) : QueueOp → Option QueueTrace
  | .append u => some ⟨t.queue.Append u, t.popped⟩
  | .next =>
    match t.queue.Next with
    | .panicked => none
    | .value u q' => some ⟨q', t.popped ++ [u]⟩

/-- Execute a call sequence from a given trace state. -/
def execOpsFrom (t : QueueTrace) : List QueueOp → Option QueueTrace
  | [] => some t
  | op :: rest =>
    match applyOp t op with
    | none => none
    | some t' => execOpsFrom t' rest

/-- Execute a call sequence from the fresh queue. -/
def execOps (ops : List QueueOp) : Option QueueTrace :=
  execOpsFrom ⟨newURLQueue, []⟩ ops

/-- The deduplication keys of all URLs appended by a call sequence, in
order. -/
def appendedKeys : List QueueOp → List String
  | [] => []
  | .append u :: rest => urlString u :: appendedKeys rest
  | .next :: rest => appendedKeys rest

/-- The caller discipline the spider follows (its `work` step filters with
`createNotSeenPredicate` before appending): starting from trace state `t`,
every `append` is of a URL whose key is not yet in the seen-set. -/
def disciplined (t : QueueTrace) : List QueueOp → Bool
  | [] => true
  | .append u :: rest =>
    if urlString u ∈ t.queue.seen then false
    else disciplined ⟨t.queue.Append u, t.popped⟩ rest
  | .next :: rest =>
    match t.queue.Next with
    | .panicked => true
    | .value u q' => disciplined ⟨q', t.popped ++ [u]⟩ rest

/-! Invariants and concrete instances used by the theorems below. -/

/-- Number of workers currently holding a popped item whose deferred
`wg.Done()` has not fired (position `busy`). -/
def busyCount (ws : List WorkerPos) : Nat :=
  ws.countP WorkerPos.isBusy

/-- The inductive invariant of the completion-counter protocol: the counter
equals the pending queue entries plus the workers holding an accounted
popped item. -/
def CounterInv (s : CounterState) : Prop :=
  s.counter = (s.pending : Int) + (busyCount s.workers : Int)

/-- A concrete root URL. -/
def rootExample : URL := ⟨"http", "example.com", ""⟩

/-- A concrete relative URL: no scheme and no host. -/
def relativeExample : URL := ⟨"", "", "about"⟩

/-- A concrete absolute internal link of `rootExample`. -/
def linkAExample : URL := ⟨"http", "example.com", "a"⟩

/-- A second concrete absolute internal link of `rootExample`. -/
def linkBExample : URL := ⟨"http", "example.com", "b"⟩

/-- A concrete error that does not implement `Retryable`. -/
def fatalErrExample : GoError := ⟨"connection refused", false, false⟩

/-- A concrete error implementing `Retryable` with `Retryable()` true
(`concurrency.RetryableError`). -/
def retryErrExample : GoError := ⟨"temporary", true, true⟩

/-- Crawl environment in which every fetch fails fatally. -/
def envAllFail : URL → Except GoError (List URL) :=
  fun _ => .error fatalErrExample

/-- Crawl environment in which the root page links to two internal pages
and fetching either of those fails fatally. -/
def envRootTwoLinks : URL → Except GoError (List URL) :=
  fun u => if u = rootExample then .ok [linkAExample, linkBExample] else .error fatalErrExample

/-- A URL appended twice in the duplicate-pop counterexample. -/
def uDup : URL := ⟨"http", "example.com", "dup"⟩

/-- Call sequence appending the same URL twice and popping twice. -/
def opsDup : List QueueOp := [.append uDup, .append uDup, .next, .next]

/-- The trace state `opsDup` reaches. -/
def dupTrace : QueueTrace := ⟨⟨[], [urlString uDup]⟩, [uDup, uDup]⟩

/-- A disciplined call sequence: append one unseen URL, pop it. -/
def opsOne : List QueueOp := [.append uDup, .next]

/-- The trace state `opsOne` reaches. -/
def oneTrace : QueueTrace := ⟨⟨[], [urlString uDup]⟩, [uDup]⟩

/-!  Theorems. -/

/-- C6: on a Frontier whose pending list is non-empty, `Next` removes and
returns the most recently appended URL (stack pop), leaving the earlier
pending URLs unchanged and in their original order; traversal is therefore
last-in-first-out. -/
theorem next_pops_most_recent (seen : List String) (us : List URL) (u : URL) :
    urlQueue.Next ⟨us ++ [u], seen⟩ = .value u ⟨us, seen⟩ := by
  simp [urlQueue.Next]

/-- C3 (evaluation at the failing input): `urlQueue.Next` on an empty
Frontier does not return the empty marker `nil` consumed by the crawl
step's check — the slice expression `q.urls[len(q.urls)-1]` raises an
index-out-of-range panic. -/
theorem next_on_empty_panics : urlQueue.Next ⟨[], []⟩ = NextOutcome.panicked := rfl

/-- C10: the Reporter's `Add` is idempotent per key with first write wins:
if `u` is unrecorded, recording `(l1, a1)` and then `(l2, a2)` leaves the
reporter exactly as after the first call, the recorded content for `u` is
`(l1, a1)`, and no duplicate entry is created. -/
theorem reporter_add_first_write_wins (r : HTML) (u : URLPtr)
    (l1 l2 : List URL) (a1 a2 : List String) (h : r.sitemap.lookup u = none) :
    (r.Add u l1 a1).Add u l2 a2 = r.Add u l1 a1 ∧
    ((r.Add u l1 a1).Add u l2 a2).sitemap.lookup u = some ⟨l1, a1⟩ ∧
    ((r.Add u l1 a1).Add u l2 a2).sitemap.length = r.sitemap.length + 1 := by
  have h1 : r.Add u l1 a1 = ⟨(u, ⟨l1, a1⟩) :: r.sitemap⟩ := by
    simp [HTML.Add, h]
  have h2 : ((u, (⟨l1, a1⟩ : pageContent)) :: r.sitemap).lookup u = some ⟨l1, a1⟩ := by
    simp [List.lookup]
  have h3 : (r.Add u l1 a1).Add u l2 a2 = r.Add u l1 a1 := by
    rw [h1, HTML.Add]
    simp [h2]
  refine ⟨h3, ?_, ?_⟩
  · rw [h3, h1]
    exact h2
  · rw [h3, h1]
    simp

/-- Witness for C10 at a concrete reporter state. -/
theorem reporter_add_first_write_wins_witness :
    (NewHTML.Add 0 [linkAExample] ["x.img"]).Add 0 [linkBExample] ["y.img"] =
      NewHTML.Add 0 [linkAExample] ["x.img"] ∧
    ((NewHTML.Add 0 [linkAExample] ["x.img"]).Add 0 [linkBExample] ["y.img"]).sitemap.lookup 0 =
      some ⟨[linkAExample], ["x.img"]⟩ ∧
    ((NewHTML.Add 0 [linkAExample] ["x.img"]).Add 0 [linkBExample] ["y.img"]).sitemap.length =
      NewHTML.sitemap.length + 1 :=
  reporter_add_first_write_wins NewHTML 0 [linkAExample] [linkBExample] ["x.img"] ["y.img"] rfl

/-- C7 (counterexample): the claim says a relative URL (no scheme and no
host) is always internal, but the classifier compares hostnames only: with
root host `example.com` a relative URL (host `""`) is classified external
under both settings of `followSubdomains`. -/
theorem isInternal_relative_counterexample :
    createIsInternalPredicate rootExample false relativeExample = false ∧
    createIsInternalPredicate rootExample true relativeExample = false := by
  decide

/-- C7 (amended): the classifier tests hosts only — a URL is internal iff
its host equals the root host, or, when `followSubdomains` is enabled, the
root host is a suffix of its host; a relative URL is classified internal
only when the root host is empty, but in the crawl pipeline every link is
resolved against the root before classification, and a resolved relative
URL (which receives the root's host) is always internal. -/
theorem isInternal_host_classification (root input : URL) (f : Bool) :
    (createIsInternalPredicate root f input = true ↔
      (input.host = root.host ∨ (f = true ∧ root.host.data <:+ input.host.data))) ∧
    (input.scheme = "" → input.host = "" →
      createIsInternalPredicate root f (resolveReference root input) = true) := by
  constructor
  · cases f with
    | false =>
      simp [createIsInternalPredicate]
    | true =>
      simp only [createIsInternalPredicate, if_pos, goHasSuffix, decide_eq_true_eq, true_and]
      constructor
      · exact fun h => Or.inr h
      · rintro (h | h)
        · rw [h]
        · exact h
  · intro hs hh
    have hres : resolveReference root input =
        { scheme := root.scheme, host := root.host,
          path := if input.path.startsWith "/" then input.path
                  else mergePaths root.path input.path } := by
      simp [resolveReference, hs, hh]
    rw [hres]
    cases f with
    | false => simp [createIsInternalPredicate]
    | true => simp [createIsInternalPredicate, goHasSuffix, List.suffix_refl]

/-- Witness for C7's amended theorem: the concrete relative URL, once
resolved against the concrete root, is classified internal. -/
theorem isInternal_host_classification_witness :
    createIsInternalPredicate rootExample false
      (resolveReference rootExample relativeExample) = true :=
  (isInternal_host_classification rootExample relativeExample false).2 rfl rfl

/-- Whatever `Start` returns as an error is never a retryable error:
`runWorker` turns retryable outcomes into result messages. -/
theorem poolStart_not_retryable (outs : List (Option GoError)) (e' : GoError)
    (h : poolStart outs = some e') : isRetryableErr e' = false := by
  induction outs with
  | nil => exact absurd h (by simp [poolStart, runWorkerMsgs, startLoop])
  | cons o rest ih =>
    rw [poolStart, runWorkerMsgs, List.map_cons] at h
    cases o with
    | none => exact ih (by simpa [runWorkerClassify, startLoop, poolStart, runWorkerMsgs] using h)
    | some e =>
      by_cases hr : isRetryableErr e = true
      · rw [runWorkerClassify] at h
        simp only [hr, if_true] at h
        exact ih (by simpa [startLoop, poolStart, runWorkerMsgs] using h)
      · rw [runWorkerClassify] at h
        simp only [hr, if_false] at h
        simp only [startLoop] at h
        cases h
        simpa using hr

/-- Outcomes classified as results (successes and retryable failures) are
skipped by the control loop. -/
theorem poolStart_skips_clean (before rest : List (Option GoError))
    (hb : ∀ o ∈ before, ∀ e', o = some e' → isRetryableErr e' = true) :
    poolStart (before ++ rest) = poolStart rest := by
  induction before with
  | nil => rfl
  | cons o tl ih =>
    have hcl : runWorkerClassify o = PoolMsg.result := by
      cases o with
      | none => rfl
      | some e =>
        have := hb (some e) (List.mem_cons_self _ _) e rfl
        simp [runWorkerClassify, this]
    have htl : ∀ o ∈ tl, ∀ e', o = some e' → isRetryableErr e' = true :=
      fun o ho e' he => hb o (List.mem_cons_of_mem _ ho) e' he
    rw [List.cons_append, poolStart, runWorkerMsgs, List.map_cons, hcl]
    simp only [startLoop]
    exact ih htl

/-- C4: for a unit-of-work outcome stream with no earlier fatal error, a
retryable error is classified as a result (the pool continues scheduling as
if it were a success) and is never the value `Start` returns; any other
non-nil error makes the pool stop and `Start` return exactly that error. -/
theorem workerpool_error_classification (before after : List (Option GoError)) (e : GoError)
    (hb : ∀ o ∈ before, ∀ e', o = some e' → isRetryableErr e' = true) :
    (isRetryableErr e = true →
      runWorkerClassify (some e) = PoolMsg.result ∧
      poolStart (before ++ some e :: after) = poolStart (before ++ after) ∧
      poolStart (before ++ some e :: after) ≠ some e) ∧
    (isRetryableErr e = false →
      poolStart (before ++ some e :: after) = some e) := by
  constructor
  · intro hr
    have hcl : runWorkerClassify (some e) = PoolMsg.result := by
      simp [runWorkerClassify, hr]
    have heq : poolStart (before ++ some e :: after) = poolStart (before ++ after) := by
      rw [poolStart_skips_clean before _ hb, poolStart_skips_clean before _ hb,
        poolStart, runWorkerMsgs, List.map_cons, hcl, startLoop]
      rfl
    refine ⟨hcl, heq, fun hcontra => ?_⟩
    have := poolStart_not_retryable _ _ hcontra
    rw [this] at hr
    cases hr
  · intro hr
    rw [poolStart_skips_clean before _ hb, poolStart, runWorkerMsgs, List.map_cons,
      runWorkerClassify]
    simp [hr, startLoop]

/-- Witness for C4: with a success and a retryable failure first, `Start`
returns exactly the later fatal error. -/
theorem workerpool_error_classification_witness :
    poolStart ([none, some retryErrExample] ++ some fatalErrExample :: [none]) =
      some fatalErrExample :=
  (workerpool_error_classification [none, some retryErrExample] [none] fatalErrExample
    (by
      intro o ho e' he
      rcases List.mem_cons.mp ho with rfl | ho2
      · cases he
      rcases List.mem_cons.mp ho2 with rfl | ho3
      · cases he
        rfl
      · cases ho3)).2 rfl

/-- Appending a batch leaves the earlier pending entries in place and adds
the batch at the end, in order. -/
theorem appendAll_urls (q : urlQueue) (items : List URL) :
    (appendAll q items).urls = q.urls ++ items := by
  induction items generalizing q with
  | nil => simp [appendAll]
  | cons hd tl ih =>
    simp only [appendAll, List.foldl_cons] at ih ⊢
    rw [ih (q.Append hd)]
    simp [urlQueue.Append]

/-- The crawl step's three-pass filtering (map to absolute, keep internal,
keep unseen) equals the one-pass description from the specification. -/
theorem workFilterStep_eq_spec (parse : String → Option URL) (root : URL)
    (followSubdomains : Bool) (queueSeen : URL → Bool) (hrefs : List String) :
    workFilterStep root followSubdomains queueSeen (extractParsedLinks parse hrefs) =
      specAdmittedLinks parse root followSubdomains queueSeen hrefs := by
  induction hrefs with
  | nil => rfl
  | cons raw rest ih =>
    rw [specAdmittedLinks, List.filterMap_cons]
    rw [specAdmittedLinks] at ih
    cases hp : parse raw with
    | none =>
      rw [extractParsedLinks, List.filterMap_cons, hp]
      exact ih
    | some u =>
      rw [extractParsedLinks, List.filterMap_cons, hp]
      rw [extractParsedLinks] at ih
      simp only [workFilterStep, mapURLs, filter, createAbsoluteTransformer,
        createNotSeenPredicate, List.map_cons, List.filter_cons] at ih ⊢
      cases hint : createIsInternalPredicate root followSubdomains (resolveReference root u) with
      | false => simp [hint, ih]
      | true =>
        cases hseen : queueSeen (resolveReference root u) with
        | false => simp [createNotSeenPredicate, List.filter_cons, hint, hseen, ih]
        | true => simp [createNotSeenPredicate, List.filter_cons, hint, hseen, ih]

/-- C8: the batch of URLs admitted by one crawl step equals, in input
order, the raw link strings parsed (unparsable ones dropped, never
fatally), resolved against the run's root URL, and kept iff internal and
not seen at the start of the step; appending them leaves the Frontier's
earlier entries intact. -/
theorem work_admits_filtered_batch (parse : String → Option URL) (root : URL)
    (followSubdomains : Bool) (queueSeen : URL → Bool) (hrefs : List String) (q : urlQueue) :
    workFilterStep root followSubdomains queueSeen (extractParsedLinks parse hrefs) =
      specAdmittedLinks parse root followSubdomains queueSeen hrefs ∧
    (appendAll q (specAdmittedLinks parse root followSubdomains queueSeen hrefs)).urls =
      q.urls ++ specAdmittedLinks parse root followSubdomains queueSeen hrefs :=
  ⟨workFilterStep_eq_spec parse root followSubdomains queueSeen hrefs,
    appendAll_urls q _⟩

/-- Status-hint parsing never fails: every status code yields a policy. -/
theorem robotstxtFromStatusAndBytes_ok (st : Nat) (body : String) :
    ∃ d, robotstxtFromStatusAndBytes st body = .ok d := by
  rw [robotstxtFromStatusAndBytes]
  split_ifs <;> exact ⟨_, rfl⟩

/-- C9: `readRobotsData` returns an error exactly when the robots request
fails with a non-HTTP transport error, in which case `Run` returns that
error before any page is fetched; an HTTP status failure is instead parsed
with the status as a hint — allow-all for a 4xx, deny-by-default for a
5xx. -/
theorem robots_transport_error_is_fatal (e : GoError) (body : String) (st : Nat)
    (env : URL → Except GoError (List URL)) (followSubdomains : Bool)
    (root : URL) (fuel : Nat) :
    readRobotsData (.transportError e) = .error e ∧
    (400 ≤ st → st < 500 → readRobotsData (.httpError st body) = .ok .allowAll) ∧
    (500 ≤ st → readRobotsData (.httpError st body) = .ok .disallowAll) ∧
    (∀ r : RequestOutcome,
      (∃ e', readRobotsData r = .error e') ↔ (∃ e', r = .transportError e')) ∧
    spiderRun false (.transportError e) env followSubdomains root fuel =
      ⟨.returned (some e), []⟩ := by
  refine ⟨rfl, ?_, ?_, ?_, rfl⟩
  · intro h1 h2
    rw [readRobotsData, robotstxtFromStatusAndBytes,
      if_neg (by omega : ¬(200 ≤ st ∧ st < 300)), if_pos (by omega : 400 ≤ st ∧ st < 500)]
  · intro h1
    rw [readRobotsData, robotstxtFromStatusAndBytes,
      if_neg (by omega : ¬(200 ≤ st ∧ st < 300)), if_neg (by omega : ¬(400 ≤ st ∧ st < 500)),
      if_pos h1]
  · intro r
    cases r with
    | ok b => simp [readRobotsData]
    | httpError st' b' =>
      obtain ⟨d, hd⟩ := robotstxtFromStatusAndBytes_ok st' b'
      simp [readRobotsData, hd]
    | transportError e' => simp [readRobotsData]

/-- Witness for C9: a 404 yields the allow-all policy, a 500 yields the
deny-all policy, and a transport error is returned by `Run` with nothing
fetched. -/
theorem robots_transport_error_is_fatal_witness :
    readRobotsData (.httpError 404 "") = .ok .allowAll ∧
    readRobotsData (.httpError 500 "") = .ok .disallowAll ∧
    spiderRun false (.transportError fatalErrExample) envAllFail false rootExample 3 =
      ⟨.returned (some fatalErrExample), []⟩ := by
  refine ⟨?_, ?_, ?_⟩
  · exact (robots_transport_error_is_fatal fatalErrExample "" 404 envAllFail false
      rootExample 3).2.1 (by omega) (by omega)
  · exact (robots_transport_error_is_fatal fatalErrExample "" 500 envAllFail false
      rootExample 3).2.2.1 (by omega)
  · exact (robots_transport_error_is_fatal fatalErrExample "" 500 envAllFail false
      rootExample 3).2.2.2.2

/-- C2 (evaluation at the failing input): when the unit of work returns a
fatal, non-retryable error, `Run` does not return that error — the value of
`pool.Start()` is discarded by `go pool.Start()`.  Fetching the root fails
fatally and `Run` returns `nil`; when further URLs are still pending at the
failure, `Run` blocks forever on the completion counter instead. -/
theorem run_discards_fatal_error :
    spiderRun true (.ok "") envAllFail false rootExample 5 =
      ⟨.returned none, [rootExample]⟩ ∧
    spiderRun true (.ok "") envRootTwoLinks false rootExample 5 =
      ⟨.hangs, [rootExample, linkBExample]⟩ := by
  constructor <;> decide

/-- Updating one list entry changes `countP` by swapping the contribution
of the old value for that of the new value. -/
theorem countP_set_balance {α : Type} (l : List α) (i : Nat) (a b : α) (p : α → Bool)
    (h : l.get? i = some a) :
    (l.set i b).countP p + (if p a then 1 else 0) =
      l.countP p + (if p b then 1 else 0) := by
  induction l generalizing i with
  | nil => simp at h
  | cons hd tl ih =>
    cases i with
    | zero =>
      have ha : hd = a := by simpa using h
      subst ha
      rw [List.set_cons_zero, List.countP_cons, List.countP_cons]
      split_ifs <;> omega
    | succ j =>
      have h' : tl.get? j = some a := by simpa using h
      have hih := ih j h'
      rw [List.set_cons_succ, List.countP_cons, List.countP_cons]
      split_ifs at hih ⊢ <;> omega

/-- No worker of a freshly started pool holds a popped item. -/
theorem busyCount_replicate_idle (n : Nat) :
    busyCount (List.replicate n .idle) = 0 := by
  induction n with
  | zero => rfl
  | succ m ih =>
    rw [List.replicate, busyCount, List.countP_cons]
    rw [busyCount] at ih
    simp [WorkerPos.isBusy, ih]

/-- The counter invariant is preserved by every interleaved event. -/
theorem counterInv_step (s s' : CounterState) (hstep : CounterStep s s')
    (h : CounterInv s) : CounterInv s' := by
  cases hstep with
  | pop i k hget hp =>
    have hc := countP_set_balance s.workers i WorkerPos.idle (WorkerPos.busy k)
      WorkerPos.isBusy hget
    norm_num [WorkerPos.isBusy] at hc
    unfold CounterInv busyCount at h ⊢
    dsimp only
    omega
  | append i k hget =>
    have hc := countP_set_balance s.workers i (WorkerPos.busy (k + 1)) (WorkerPos.gap k)
      WorkerPos.isBusy hget
    norm_num [WorkerPos.isBusy] at hc
    unfold CounterInv busyCount at h ⊢
    dsimp only
    omega
  | add i k hget =>
    have hc := countP_set_balance s.workers i (WorkerPos.gap k) (WorkerPos.busy k)
      WorkerPos.isBusy hget
    norm_num [WorkerPos.isBusy] at hc
    unfold CounterInv busyCount at h ⊢
    dsimp only
    omega
  | done i k hget =>
    have hc := countP_set_balance s.workers i (WorkerPos.busy k) WorkerPos.idle
      WorkerPos.isBusy hget
    norm_num [WorkerPos.isBusy] at hc
    unfold CounterInv busyCount at h ⊢
    dsimp only
    omega

/-- Every reachable state satisfies the counter invariant. -/
theorem counterReachable_inv (n : Nat) (s : CounterState)
    (h : CounterReachable n s) : CounterInv s := by
  induction h with
  | refl =>
    unfold CounterInv counterInit
    simp [busyCount_replicate_idle]
  | tail hsteps hstep ih => exact counterInv_step _ _ hstep ih

/-- C1: under every interleaving of the concurrent workers, the completion
counter — incremented once per URL admitted to the Frontier including the
root, decremented once per popped item after that item's link admissions —
never observes a value below zero. -/
theorem completion_counter_nonneg (n : Nat) (s : CounterState)
    (h : CounterReachable n s) : 0 ≤ s.counter := by
  have hinv := counterReachable_inv n s h
  unfold CounterInv at hinv
  omega

/-- Witness for C1 at the pool-start state of a two-worker run. -/
theorem completion_counter_nonneg_witness : 0 ≤ (counterInit 2).counter :=
  completion_counter_nonneg 2 (counterInit 2) Relation.ReflTransGen.refl

/-- Inversion of a successful pop: the pending slice was the remaining
slice with the returned URL at the back, and the seen-set is untouched. -/
theorem next_value_inv (q : urlQueue) (u : URL) (q' : urlQueue)
    (h : q.Next = .value u q') :
    q.urls = q'.urls ++ [u] ∧ q'.seen = q.seen := by
  rw [urlQueue.Next] at h
  cases hg : q.urls.getLast? with
  | none => rw [hg] at h; cases h
  | some v =>
    rw [hg] at h
    cases h
    refine ⟨?_, rfl⟩
    exact (List.dropLast_append_getLast? u hg).symm

/-- After a call sequence, a key is seen iff it was seen before or appended
by the sequence. -/
theorem execOpsFrom_seen (ops : List QueueOp) (t0 t : QueueTrace)
    (h : execOpsFrom t0 ops = some t) (k : String) :
    k ∈ t.queue.seen ↔ (k ∈ t0.queue.seen ∨ k ∈ appendedKeys ops) := by
  induction ops generalizing t0 with
  | nil =>
    rw [execOpsFrom] at h
    cases h
    simp [appendedKeys]
  | cons op rest ih =>
    rw [execOpsFrom] at h
    cases op with
    | append u =>
      simp only [applyOp] at h
      rw [ih _ h]
      simp only [urlQueue.Append, appendedKeys, List.mem_insert_iff, List.mem_cons]
      tauto
    | next =>
      cases hn : t0.queue.Next with
      | panicked => simp [applyOp, hn] at h
      | value u q' =>
        simp only [applyOp, hn] at h
        obtain ⟨_, hseen⟩ := next_value_inv _ _ _ hn
        rw [ih _ h]
        simp only [hseen, appendedKeys]

/-- Pending and popped URLs keep their keys inside the seen-set. -/
theorem execOpsFrom_keys_sub (ops : List QueueOp) (t0 t : QueueTrace)
    (h : execOpsFrom t0 ops = some t)
    (hsub : ∀ u, u ∈ t0.queue.urls ++ t0.popped → urlString u ∈ t0.queue.seen) :
    ∀ u, u ∈ t.queue.urls ++ t.popped → urlString u ∈ t.queue.seen := by
  induction ops generalizing t0 with
  | nil =>
    rw [execOpsFrom] at h
    cases h
    exact hsub
  | cons op rest ih =>
    rw [execOpsFrom] at h
    cases op with
    | append u =>
      simp only [applyOp] at h
      apply ih _ h
      intro v hv
      simp only [urlQueue.Append, List.mem_insert_iff]
      simp only [urlQueue.Append, List.mem_append, List.mem_singleton] at hv
      rcases hv with (hv | rfl) | hv
      · exact Or.inr (hsub v (List.mem_append_left _ hv))
      · exact Or.inl rfl
      · exact Or.inr (hsub v (List.mem_append_right _ hv))
    | next =>
      cases hn : t0.queue.Next with
      | panicked => simp [applyOp, hn] at h
      | value u q' =>
        simp only [applyOp, hn] at h
        obtain ⟨hurls, hseen⟩ := next_value_inv _ _ _ hn
        apply ih _ h
        intro v hv
        rw [hseen]
        apply hsub
        rw [hurls]
        simp only [List.mem_append, List.mem_singleton] at hv ⊢
        tauto

/-- Unfolding of `disciplined` on a `next` call. -/
theorem disciplined_next (t : QueueTrace) (rest : List QueueOp) :
    disciplined t (.next :: rest) =
      match t.queue.Next with
      | .panicked => true
      | .value u q' => disciplined ⟨q', t.popped ++ [u]⟩ rest := rfl

/-- Under the caller discipline (append only unseen URLs), the keys of the
pending and popped URLs stay duplicate-free. -/
theorem execOpsFrom_nodup (ops : List QueueOp) (t0 t : QueueTrace)
    (h : execOpsFrom t0 ops = some t) (hd : disciplined t0 ops = true)
    (hsub : ∀ u, u ∈ t0.queue.urls ++ t0.popped → urlString u ∈ t0.queue.seen)
    (hnd : ((t0.queue.urls ++ t0.popped).map urlString).Nodup) :
    ((t.queue.urls ++ t.popped).map urlString).Nodup := by
  induction ops generalizing t0 with
  | nil =>
    rw [execOpsFrom] at h
    cases h
    exact hnd
  | cons op rest ih =>
    rw [execOpsFrom] at h
    cases op with
    | append u =>
      simp only [applyOp] at h
      simp only [disciplined] at hd
      by_cases hku : urlString u ∈ t0.queue.seen
      · rw [if_pos hku] at hd
        cases hd
      · rw [if_neg hku] at hd
        apply ih _ h hd
        · intro v hv
          simp only [urlQueue.Append, List.mem_insert_iff]
          simp only [urlQueue.Append, List.mem_append, List.mem_singleton] at hv
          rcases hv with (hv | rfl) | hv
          · exact Or.inr (hsub v (List.mem_append_left _ hv))
          · exact Or.inl rfl
          · exact Or.inr (hsub v (List.mem_append_right _ hv))
        · have hperm : List.Perm ((t0.queue.urls ++ [u]) ++ t0.popped)
              (u :: (t0.queue.urls ++ t0.popped)) := by
            rw [List.append_assoc, List.singleton_append]
            exact List.perm_middle
          refine ((hperm.map urlString).nodup_iff).mpr ?_
          rw [List.map_cons, List.nodup_cons]
          refine ⟨?_, hnd⟩
          intro hmem
          obtain ⟨v, hv, hkv⟩ := List.mem_map.mp hmem
          exact hku (hkv ▸ hsub v hv)
    | next =>
      cases hn : t0.queue.Next with
      | panicked => simp [applyOp, hn] at h
      | value u q' =>
        simp only [applyOp, hn] at h
        rw [disciplined_next, hn] at hd
        obtain ⟨hurls, hseen⟩ := next_value_inv _ _ _ hn
        apply ih _ h hd
        · intro v hv
          rw [hseen]
          apply hsub
          rw [hurls]
          simp only [List.mem_append, List.mem_singleton] at hv ⊢
          tauto
        · rw [hurls] at hnd
          have hperm : List.Perm (q'.urls ++ (t0.popped ++ [u]))
              ((q'.urls ++ [u]) ++ t0.popped) := by
            rw [List.append_assoc]
            exact List.Perm.append_left q'.urls List.perm_append_comm
          exact ((hperm.map urlString).nodup_iff).mpr hnd

/-- C5 (counterexample): the Frontier itself does not reject duplicates —
appending the same URL twice and popping twice pops that URL twice, so the
claim fails for this sequence of `Append`/`Next` operations. -/
theorem frontier_pop_twice_counterexample :
    execOps opsDup = some dupTrace ∧ dupTrace.popped = [uDup, uDup] ∧
    ¬ (dupTrace.popped.map urlString).Nodup := by
  refine ⟨by decide, rfl, ?_⟩
  simp [dupTrace]

/-- C5 (amended): after every finite sequence of `Append` and `Next`
operations that completes without panicking, the seen-set equals the set of
string forms of all URLs ever appended, and it contains the keys of the
pending and of the popped URLs; provided every append is of a URL not
already seen at that moment — the discipline the spider's not-seen filter
enforces — no URL is popped twice. -/
theorem frontier_seen_invariants (ops : List QueueOp) (t : QueueTrace)
    (h : execOps ops = some t) :
    (∀ k, k ∈ t.queue.seen ↔ k ∈ appendedKeys ops) ∧
    (∀ u, u ∈ t.queue.urls → urlString u ∈ t.queue.seen) ∧
    (∀ u, u ∈ t.popped → urlString u ∈ t.queue.seen) ∧
    (disciplined ⟨newURLQueue, []⟩ ops = true → (t.popped.map urlString).Nodup) := by
  rw [execOps] at h
  refine ⟨?_, ?_, ?_, ?_⟩
  · intro k
    have hk := execOpsFrom_seen ops _ t h k
    simpa [newURLQueue] using hk
  · intro u hu
    exact execOpsFrom_keys_sub ops _ t h (by simp [newURLQueue]) u (List.mem_append_left _ hu)
  · intro u hu
    exact execOpsFrom_keys_sub ops _ t h (by simp [newURLQueue]) u (List.mem_append_right _ hu)
  · intro hdisc
    have hnd := execOpsFrom_nodup ops _ t h hdisc (by simp [newURLQueue]) (by simp [newURLQueue])
    have hsl : t.popped.Sublist (t.queue.urls ++ t.popped) := List.sublist_append_right _ _
    exact List.Nodup.sublist (hsl.map urlString) hnd

/-- Witness for C5: a disciplined append-then-pop sequence yields a
duplicate-free popped log whose URL is in the seen-set. -/
theorem frontier_seen_invariants_witness :
    (oneTrace.popped.map urlString).Nodup ∧
    (urlString uDup ∈ oneTrace.queue.seen ↔ urlString uDup ∈ appendedKeys opsOne) :=
  ⟨(frontier_seen_invariants opsOne oneTrace (by decide)).2.2.2 (by decide),
   (frontier_seen_invariants opsOne oneTrace (by decide)).1 (urlString uDup)⟩

end GoSpider
